import Mathlib

/-!
Shallow embedding of `lab_6_pipeline/pipeline.py`: CONLL-U formatting
pipeline (corpus validation, token/sentence cleaning, sentence rendering,
tag conversion).  Python strings are modelled as Lean `String`; the regex
character classes `\w` / `\s` and `str.lower` are modelled with their
ASCII semantics, which is exact on the ASCII inputs the development uses.
-/

/-- Python `\s` class membership (ASCII whitespace as Python sees it). -/
def pyIsSpace (c : Char) : Bool :=
  c = ' ' || c = '\t' || c = '\n' || c = '\x0d' || c = '\x0b' || c = '\x0c'

/-- Python `\w` class membership (ASCII word character: letter, digit or
underscore). -/
def pyIsWord (c : Char) : Bool :=
  c.isAlpha || c.isDigit || c = '_'

/-- Python `str.lower` (ASCII range). -/
def pyLower (s : String) : String :=
  String.mk (s.data.map Char.toLower)

/-- Python `str.strip()` on a character list: drop whitespace from both
ends. -/
def pyStripList (l : List Char) : List Char :=
  ((l.dropWhile pyIsSpace).reverse.dropWhile pyIsSpace).reverse

/-- Python `str.strip()`. -/
def pyStrip (s : String) : String :=
  String.mk (pyStripList s.data)

/-- `re.sub(r'[^\w\s]', '', s)`: delete every character that is neither a
word character nor whitespace. -/
def reSubNonWordSpace (s : String) : String :=
  String.mk (s.data.filter (fun c => pyIsWord c || pyIsSpace c))

/-- `MorphologicalTokenDTO` from `pipeline.py`.  Modelled from the spec:
the source `__init__` body is a declaration-only stub; the spec describes
a value object `{lemma, pos, tags}` whose default state is empty. -/
structure MorphologicalTokenDTO where
  lemmaForm : String := ""
  pos : String := ""
  tags : String := ""
deriving DecidableEq, Repr, Inhabited

/-- `ConlluToken` from `pipeline.py`: holds the raw surface text.  The
morphological-parameter slot is modelled from the spec (the source
accessors are declaration-only stubs). -/
structure ConlluToken where
  _text : String
  _morphological_parameters : MorphologicalTokenDTO := {}
deriving DecidableEq, Repr

/-- Build a token exactly as `ConlluToken.__init__` does: only the
surface text is supplied; the annotation starts empty. -/
def ConlluToken.ofText (s : String) : ConlluToken :=
  { _text := s }

/-- `ConlluToken.get_cleaned`: lowercase the surface text, then remove
every character outside `[\w\s]`. -/
def ConlluToken.get_cleaned (t : ConlluToken) : String :=
  reSubNonWordSpace (pyLower t._text)

/-- `ConlluToken.set_morphological_parameters`.  Modelled from the spec:
the source body is a declaration-only stub; the spec calls it a plain
setter with no transformation. -/
def ConlluToken.set_morphological_parameters (t : ConlluToken)
    (parameters : MorphologicalTokenDTO) : ConlluToken :=
  { t with _morphological_parameters := parameters }

/-- `ConlluToken.get_morphological_parameters`.  Modelled from the spec:
the source body is a declaration-only stub; the spec calls it a plain
getter with no transformation. -/
def ConlluToken.get_morphological_parameters (t : ConlluToken) :
    MorphologicalTokenDTO :=
  t._morphological_parameters

/-- `ConlluSentence` from `pipeline.py`. -/
structure ConlluSentence where
  _position : Nat
  _text : String
  _tokens : List ConlluToken
deriving DecidableEq, Repr

/-- `ConlluSentence.get_cleaned_sentence`: accumulate each non-empty
cleaned token followed by a space, then strip. -/
def ConlluSentence.get_cleaned_sentence (s : ConlluSentence) : String :=
  pyStrip (s._tokens.foldl
    (fun sentence token =>
      let cleaned_token := token.get_cleaned
      if cleaned_token ≠ "" then sentence ++ cleaned_token ++ " " else sentence)
    "")

/-- `ConlluSentence.get_tokens`. -/
def ConlluSentence.get_tokens (s : ConlluSentence) : List ConlluToken :=
  s._tokens

/-- The spec's description of cleaning, stated independently of the code
path: map the lowercase function over the characters and keep exactly the
word characters and whitespace. -/
def specCleaned (s : String) : String :=
  String.mk ((s.data.map Char.toLower).filter (fun c => pyIsWord c || pyIsSpace c))

theorem get_cleaned_eq_specCleaned (t : ConlluToken) :
    t.get_cleaned = specCleaned t._text := by
  simp [ConlluToken.get_cleaned, specCleaned, reSubNonWordSpace, pyLower]

/-- C3: cleaning lowercases and strips every character that is neither a
word character nor whitespace; `"Hello, World!"` cleans to
`"hello world"` and the punctuation-only `"!!!"` cleans to `""`. -/
theorem C3_get_cleaned_spec (t : ConlluToken) :
    t.get_cleaned = specCleaned t._text
      ∧ (∀ c ∈ t.get_cleaned.data, pyIsWord c ∨ pyIsSpace c)
      ∧ (ConlluToken.ofText "Hello, World!").get_cleaned = "hello world"
      ∧ (ConlluToken.ofText "!!!").get_cleaned = "" := by
  refine ⟨get_cleaned_eq_specCleaned t, ?_, by decide, by decide⟩
  intro c hc
  have hmem : c ∈ (t._text.data.map Char.toLower).filter
      (fun c => pyIsWord c || pyIsSpace c) := by
    simpa [ConlluToken.get_cleaned, reSubNonWordSpace, pyLower] using hc
  have := List.of_mem_filter hmem
  simpa [Bool.or_eq_true] using this

/-- The spec's joining rule: the given strings, in order, separated by
single spaces. -/
def joinBySpaces : List String → String
  | [] => ""
  | [c] => c
  | c :: cs => c ++ " " ++ joinBySpaces cs

/-- The non-empty cleaned forms of a sentence's tokens, in order. -/
def nonEmptyCleanedTokens (s : ConlluSentence) : List String :=
  (s._tokens.map ConlluToken.get_cleaned).filter (fun c => c ≠ "")

/-- Each fragment followed by one space, concatenated: the value the
`get_cleaned_sentence` loop accumulates before stripping. -/
def concatSp : List String → String
  | [] => ""
  | c :: cs => c ++ " " ++ concatSp cs

/-- The string neither starts nor ends with a (Python) whitespace
character. -/
def noEdgeSpaceB (str : String) : Bool :=
  (str.data.head?.all fun c => !pyIsSpace c)
    && (str.data.getLast?.all fun c => !pyIsSpace c)

theorem cleaned_foldl_eq (tokens : List ConlluToken) (acc : String) :
    tokens.foldl (fun sentence token =>
      let cleaned_token := token.get_cleaned
      if cleaned_token ≠ "" then sentence ++ cleaned_token ++ " " else sentence) acc
    = acc ++ concatSp ((tokens.map ConlluToken.get_cleaned).filter (fun c => c ≠ "")) := by
  induction tokens generalizing acc with
  | nil => simp [concatSp]
  | cons t ts ih =>
    rw [List.foldl_cons, ih]
    by_cases h : t.get_cleaned = ""
    · simp [h, concatSp]
    · simp [h, concatSp, String.append_assoc]

theorem concatSp_eq_join (cs : List String) (h : cs ≠ []) :
    concatSp cs = joinBySpaces cs ++ " " := by
  induction cs with
  | nil => exact absurd rfl h
  | cons c cs ih =>
    cases cs with
    | nil => simp [concatSp, joinBySpaces]
    | cons d ds =>
      have h1 : concatSp (c :: d :: ds) = c ++ " " ++ concatSp (d :: ds) := rfl
      have h2 : joinBySpaces (c :: d :: ds) = c ++ " " ++ joinBySpaces (d :: ds) := rfl
      rw [h1, h2, ih (by simp)]
      simp [String.append_assoc]

theorem data_ne_nil_of_ne_empty (c : String) (hc : c ≠ "") : c.data ≠ [] := by
  intro hnil
  exact hc (String.ext (by simp [hnil]))

theorem joinBySpaces_head_eq (c : String) (cs : List String) (hc : c ≠ "") :
    (joinBySpaces (c :: cs)).data.head? = c.data.head? := by
  obtain ⟨a, l, h⟩ := List.exists_cons_of_ne_nil (data_ne_nil_of_ne_empty c hc)
  cases cs with
  | nil => simp [joinBySpaces]
  | cons d ds => simp [joinBySpaces, String.data_append, h]

theorem dropWhile_eq_self_of_head (p : Char → Bool) (l : List Char)
    (h : ∀ a, l.head? = some a → p a = false) : l.dropWhile p = l := by
  cases l with
  | nil => rfl
  | cons a l => simp [List.dropWhile_cons, h a rfl]

theorem pyStripList_append_space (J : List Char)
    (hh : ∀ a, J.head? = some a → pyIsSpace a = false)
    (hl : ∀ a, J.getLast? = some a → pyIsSpace a = false) :
    pyStripList (J ++ [' ']) = J := by
  cases J with
  | nil => rfl
  | cons a l =>
    have ha : pyIsSpace a = false := hh a rfl
    have h1 : ((a :: l) ++ [' ']).dropWhile pyIsSpace = (a :: l) ++ [' '] := by
      simp [List.dropWhile_cons, ha]
    have h2 : ((a :: l) ++ [' ']).reverse = ' ' :: (a :: l).reverse := by
      simp
    have h3 : (a :: l).reverse.dropWhile pyIsSpace = (a :: l).reverse := by
      refine dropWhile_eq_self_of_head _ _ (fun b hb => ?_)
      rw [List.head?_reverse] at hb
      exact hl b hb
    unfold pyStripList
    rw [h1, h2]
    have hsp : pyIsSpace ' ' = true := rfl
    rw [List.dropWhile_cons, hsp, if_pos rfl, h3, List.reverse_reverse]

theorem joinBySpaces_head_no_space (cs : List String)
    (hne : ∀ c ∈ cs, c ≠ "")
    (hedge : ∀ c ∈ cs, ∀ a, c.data.head? = some a → pyIsSpace a = false) :
    ∀ a, (joinBySpaces cs).data.head? = some a → pyIsSpace a = false := by
  cases cs with
  | nil => intro a h; simp [joinBySpaces] at h
  | cons c cs =>
    intro a h
    rw [joinBySpaces_head_eq c cs (hne c (by simp))] at h
    exact hedge c (by simp) a h

theorem joinBySpaces_getLast_no_space (cs : List String)
    (hne : ∀ c ∈ cs, c ≠ "")
    (hedge : ∀ c ∈ cs, ∀ a, c.data.getLast? = some a → pyIsSpace a = false) :
    ∀ a, (joinBySpaces cs).data.getLast? = some a → pyIsSpace a = false := by
  induction cs with
  | nil => intro a h; simp [joinBySpaces] at h
  | cons c cs ih =>
    cases cs with
    | nil =>
      intro a h
      exact hedge c (by simp) a (by simpa [joinBySpaces] using h)
    | cons d ds =>
      intro a h
      have hJ : (joinBySpaces (d :: ds)).data ≠ [] := by
        intro hnil
        have := joinBySpaces_head_eq d ds (hne d (by simp))
        rw [hnil] at this
        obtain ⟨b, l, hb⟩ := List.exists_cons_of_ne_nil
          (data_ne_nil_of_ne_empty d (hne d (by simp)))
        simp [hb] at this
      have hsplit : (joinBySpaces (c :: d :: ds)).data
          = (c.data ++ [' ']) ++ (joinBySpaces (d :: ds)).data := by
        simp [joinBySpaces, String.data_append]
      rw [hsplit, List.getLast?_append_of_ne_nil _ hJ] at h
      exact ih (fun x hx => hne x (by simp [hx]))
        (fun x hx => hedge x (by simp [hx])) a h

theorem noEdgeSpaceB_eq_true_iff (str : String) :
    noEdgeSpaceB str = true ↔
      (∀ a, str.data.head? = some a → pyIsSpace a = false)
        ∧ (∀ a, str.data.getLast? = some a → pyIsSpace a = false) := by
  unfold noEdgeSpaceB
  cases hh : str.data.head? <;> cases hl : str.data.getLast? <;> simp [hh, hl]

theorem mem_nonEmptyCleaned_ne (s : ConlluSentence) (c : String)
    (hc : c ∈ nonEmptyCleanedTokens s) : c ≠ "" := by
  have := (List.mem_filter.mp hc).2
  simpa using this

theorem mem_nonEmptyCleaned_edge (s : ConlluSentence)
    (h : ∀ t ∈ s._tokens, noEdgeSpaceB t.get_cleaned = true) (c : String)
    (hc : c ∈ nonEmptyCleanedTokens s) : noEdgeSpaceB c = true := by
  have hm : c ∈ s._tokens.map ConlluToken.get_cleaned := (List.mem_filter.mp hc).1
  obtain ⟨t, ht, rfl⟩ := List.mem_map.mp hm
  exact h t ht

theorem get_cleaned_sentence_eq_join (s : ConlluSentence)
    (h : ∀ t ∈ s._tokens, noEdgeSpaceB t.get_cleaned = true) :
    s.get_cleaned_sentence = joinBySpaces (nonEmptyCleanedTokens s) := by
  unfold ConlluSentence.get_cleaned_sentence
  rw [cleaned_foldl_eq, String.empty_append]
  show pyStrip (concatSp (nonEmptyCleanedTokens s)) = _
  by_cases hnil : nonEmptyCleanedTokens s = []
  · rw [hnil]; rfl
  · have hne : ∀ c ∈ nonEmptyCleanedTokens s, c ≠ "" :=
      fun c hc => mem_nonEmptyCleaned_ne s c hc
    have hedge : ∀ c ∈ nonEmptyCleanedTokens s, noEdgeSpaceB c = true :=
      fun c hc => mem_nonEmptyCleaned_edge s h c hc
    have hh := joinBySpaces_head_no_space (nonEmptyCleanedTokens s) hne
      (fun c hc => ((noEdgeSpaceB_eq_true_iff c).mp (hedge c hc)).1)
    have hl := joinBySpaces_getLast_no_space (nonEmptyCleanedTokens s) hne
      (fun c hc => ((noEdgeSpaceB_eq_true_iff c).mp (hedge c hc)).2)
    rw [concatSp_eq_join _ hnil]
    unfold pyStrip
    have hdata : (joinBySpaces (nonEmptyCleanedTokens s) ++ " ").data
        = (joinBySpaces (nonEmptyCleanedTokens s)).data ++ [' '] := by
      rw [String.data_append]
    rw [hdata, pyStripList_append_space _ hh hl]

/-- C4 counterexample: a sentence whose single token is the tab
character.  Its cleaned form is the non-empty string `"\t"`, so the
join asked for by the claim is `"\t"`, but the code's trailing strip
yields `""`. -/
theorem C4_counterexample :
    (ConlluSentence.mk 0 "" [ConlluToken.ofText "\t"]).get_cleaned_sentence
      ≠ joinBySpaces
          (nonEmptyCleanedTokens (ConlluSentence.mk 0 "" [ConlluToken.ofText "\t"])) := by
  decide

/-- C4 (amended): provided no token's cleaned form begins or ends with
a whitespace character, `get_cleaned_sentence` returns the non-empty
cleaned forms of the tokens, in order, joined by single spaces, the
result has no leading or trailing whitespace, and the sentence with
tokens `["Wow!", "Really?"]` cleans to `"wow really"`. -/
theorem C4_cleaned_sentence_amended (s : ConlluSentence)
    (h : ∀ t ∈ s._tokens, noEdgeSpaceB t.get_cleaned = true) :
    s.get_cleaned_sentence = joinBySpaces (nonEmptyCleanedTokens s)
      ∧ noEdgeSpaceB s.get_cleaned_sentence = true
      ∧ (ConlluSentence.mk 0 "Wow! Really?"
          [ConlluToken.ofText "Wow!", ConlluToken.ofText "Really?"]).get_cleaned_sentence
        = "wow really" := by
  have hmain := get_cleaned_sentence_eq_join s h
  refine ⟨hmain, ?_, by decide⟩
  rw [hmain]
  by_cases hnil : nonEmptyCleanedTokens s = []
  · rw [hnil]; rfl
  · have hne : ∀ c ∈ nonEmptyCleanedTokens s, c ≠ "" :=
      fun c hc => mem_nonEmptyCleaned_ne s c hc
    have hedge : ∀ c ∈ nonEmptyCleanedTokens s, noEdgeSpaceB c = true :=
      fun c hc => mem_nonEmptyCleaned_edge s h c hc
    refine (noEdgeSpaceB_eq_true_iff _).mpr ⟨?_, ?_⟩
    · exact joinBySpaces_head_no_space (nonEmptyCleanedTokens s) hne
        (fun c hc => ((noEdgeSpaceB_eq_true_iff c).mp (hedge c hc)).1)
    · exact joinBySpaces_getLast_no_space (nonEmptyCleanedTokens s) hne
        (fun c hc => ((noEdgeSpaceB_eq_true_iff c).mp (hedge c hc)).2)

/-- C4 witness: the amended theorem applied to the `"Wow! Really?"`
sentence, whose tokens' cleaned forms are whitespace-free. -/
theorem C4_cleaned_sentence_amended_witness :
    (∀ t ∈ [ConlluToken.ofText "Wow!", ConlluToken.ofText "Really?"],
        noEdgeSpaceB t.get_cleaned = true)
      ∧ (ConlluSentence.mk 0 "Wow! Really?"
          [ConlluToken.ofText "Wow!", ConlluToken.ofText "Really?"]).get_cleaned_sentence
        = joinBySpaces (nonEmptyCleanedTokens (ConlluSentence.mk 0 "Wow! Really?"
            [ConlluToken.ofText "Wow!", ConlluToken.ofText "Really?"])) :=
  ⟨by decide,
    (C4_cleaned_sentence_amended
      (ConlluSentence.mk 0 "Wow! Really?"
        [ConlluToken.ofText "Wow!", ConlluToken.ofText "Really?"]) (by decide)).1⟩

/-- C7: the morphological annotation is a value object holding the lemma,
POS and feature-string it was constructed with, and the token accessors
are a plain pair: after `set_morphological_parameters a` the getter
returns `a` with all three fields unchanged. -/
theorem C7_annotation_accessor_pair (t : ConlluToken) (l p g : String) :
    (t.set_morphological_parameters ⟨l, p, g⟩).get_morphological_parameters
        = ⟨l, p, g⟩
      ∧ ((t.set_morphological_parameters ⟨l, p, g⟩).get_morphological_parameters).lemmaForm = l
      ∧ ((t.set_morphological_parameters ⟨l, p, g⟩).get_morphological_parameters).pos = p
      ∧ ((t.set_morphological_parameters ⟨l, p, g⟩).get_morphological_parameters).tags = g
      ∧ (∀ a : MorphologicalTokenDTO,
          (t.set_morphological_parameters a).get_morphological_parameters = a) :=
  ⟨rfl, rfl, rfl, rfl, fun _ => rfl⟩

/-- Python `str.split()` with no argument, on a character list: split on
runs of whitespace and discard empty fragments.  `acc` holds the current
fragment reversed. -/
def pySplitAux : List Char → List Char → List (List Char)
  | [], acc => if acc = [] then [] else [acc.reverse]
  | c :: rest, acc =>
    if pyIsSpace c then
      if acc = [] then pySplitAux rest [] else acc.reverse :: pySplitAux rest []
    else pySplitAux rest (c :: acc)

/-- Python `str.split()` with no argument. -/
def pySplit (s : String) : List String :=
  (pySplitAux s.data []).map String.mk

/-- `MorphologicalAnalysisPipeline._process`, parameterised by the
external segmentation collaborator `split_by_sentence` (it lives in
`core_utils`, outside this repository): enumerate the segmented
sentences from 0, whitespace-split each into words, strip each word (as
the source does) and wrap everything in the sentence/token model. -/
def MorphologicalAnalysisPipeline._process
    (split_by_sentence : String → List String) (text : String) :
    List ConlluSentence :=
  ((split_by_sentence text).enum).map fun pe =>
    ConlluSentence.mk pe.1 pe.2
      ((pySplit pe.2).map fun word => ConlluToken.ofText (pyStrip word))

theorem pySplitAux_fragments (l : List Char) :
    ∀ acc, (∀ c ∈ acc, pyIsSpace c = false) →
      ∀ w ∈ pySplitAux l acc, w ≠ [] ∧ ∀ c ∈ w, pyIsSpace c = false := by
  induction l with
  | nil =>
    intro acc hacc w hw
    unfold pySplitAux at hw
    by_cases h : acc = []
    · simp [h] at hw
    · rw [if_neg h] at hw
      simp only [List.mem_singleton] at hw
      subst hw
      refine ⟨by simpa using h, fun c hc => hacc c (by simpa using hc)⟩
  | cons a l ih =>
    intro acc hacc w hw
    unfold pySplitAux at hw
    by_cases hsp : pyIsSpace a = true
    · rw [if_pos hsp] at hw
      by_cases h : acc = []
      · rw [if_pos h] at hw
        exact ih [] (by simp) w hw
      · rw [if_neg h] at hw
        rcases List.mem_cons.mp hw with hw | hw
        · subst hw
          refine ⟨by simpa using h, fun c hc => hacc c (by simpa using hc)⟩
        · exact ih [] (by simp) w hw
    · rw [if_neg hsp] at hw
      refine ih (a :: acc) ?_ w hw
      intro c hc
      rcases List.mem_cons.mp hc with rfl | hc
      · simpa using hsp
      · exact hacc c hc

theorem pyStripList_eq_self (l : List Char) (h : ∀ c ∈ l, pyIsSpace c = false) :
    pyStripList l = l := by
  unfold pyStripList
  have h1 : l.dropWhile pyIsSpace = l :=
    dropWhile_eq_self_of_head _ _
      (fun a ha => h a (List.mem_of_mem_head? (by simp [ha])))
  rw [h1]
  have h2 : l.reverse.dropWhile pyIsSpace = l.reverse :=
    dropWhile_eq_self_of_head _ _
      (fun a ha => h a (by
        have := List.mem_of_mem_head? (a := a) (l := l.reverse) (by simp [ha])
        simpa using this))
  rw [h2, List.reverse_reverse]

theorem pyStrip_mem_pySplit (s : String) (w : String) (hw : w ∈ pySplit s) :
    pyStrip w = w := by
  obtain ⟨wl, hwl, rfl⟩ := List.mem_map.mp hw
  have := pySplitAux_fragments s.data [] (by simp) wl hwl
  unfold pyStrip
  rw [pyStripList_eq_self _ (fun c hc => this.2 c hc)]

theorem process_getElem (split_by_sentence : String → List String) (text : String)
    (i : Nat)
    (hp : i < (MorphologicalAnalysisPipeline._process split_by_sentence text).length)
    (hs : i < (split_by_sentence text).length) :
    (MorphologicalAnalysisPipeline._process split_by_sentence text).get ⟨i, hp⟩
      = ConlluSentence.mk i ((split_by_sentence text).get ⟨i, hs⟩)
          ((pySplit ((split_by_sentence text).get ⟨i, hs⟩)).map
            (fun word => ConlluToken.ofText (pyStrip word))) := by
  rw [List.get_eq_getElem, List.get_eq_getElem]
  unfold MorphologicalAnalysisPipeline._process
  rw [List.getElem_map, List.getElem_enum]

/-- C5: `_process` wraps the sentences produced by the external
segmentation collaborator with consecutive 0-based positions, and each
sentence's tokens are exactly the whitespace-split fragments of its raw
text, in order, with their original (unlowercased) surface form; if the
collaborator segments `"Cats run. Dogs sleep."` into its two sentences,
the output is exactly those two sentences with positions 0 and 1 and two
tokens each. -/
theorem C5_process_spec (split_by_sentence : String → List String) (text : String) :
    (MorphologicalAnalysisPipeline._process split_by_sentence text).length
        = (split_by_sentence text).length
      ∧ (∀ i (hp : i < (MorphologicalAnalysisPipeline._process split_by_sentence text).length)
            (hs : i < (split_by_sentence text).length),
          ((MorphologicalAnalysisPipeline._process split_by_sentence text).get ⟨i, hp⟩)._position = i
          ∧ ((MorphologicalAnalysisPipeline._process split_by_sentence text).get ⟨i, hp⟩)._text
              = (split_by_sentence text).get ⟨i, hs⟩
          ∧ ((MorphologicalAnalysisPipeline._process split_by_sentence text).get ⟨i, hp⟩)._tokens
              = (pySplit ((split_by_sentence text).get ⟨i, hs⟩)).map ConlluToken.ofText)
      ∧ (split_by_sentence text = ["Cats run.", "Dogs sleep."] →
          MorphologicalAnalysisPipeline._process split_by_sentence text
            = [ConlluSentence.mk 0 "Cats run."
                  [ConlluToken.ofText "Cats", ConlluToken.ofText "run."],
               ConlluSentence.mk 1 "Dogs sleep."
                  [ConlluToken.ofText "Dogs", ConlluToken.ofText "sleep."]]) := by
  refine ⟨?_, ?_, ?_⟩
  · simp [MorphologicalAnalysisPipeline._process, List.enum_length]
  · intro i hp hs
    rw [process_getElem split_by_sentence text i hp hs]
    refine ⟨rfl, rfl, ?_⟩
    show ((pySplit _).map fun word => ConlluToken.ofText (pyStrip word)) = _
    exact List.map_congr_left
      (fun w hw => by rw [pyStrip_mem_pySplit _ w hw])
  · intro h
    unfold MorphologicalAnalysisPipeline._process
    rw [h]
    rfl

/-- C5 witness: the theorem applied to a collaborator that yields the two
example sentences. -/
theorem C5_process_spec_witness :
    (fun _ : String => ["Cats run.", "Dogs sleep."]) "Cats run. Dogs sleep."
        = ["Cats run.", "Dogs sleep."]
      ∧ MorphologicalAnalysisPipeline._process
          (fun _ : String => ["Cats run.", "Dogs sleep."]) "Cats run. Dogs sleep."
        = [ConlluSentence.mk 0 "Cats run."
              [ConlluToken.ofText "Cats", ConlluToken.ofText "run."],
           ConlluSentence.mk 1 "Dogs sleep."
              [ConlluToken.ofText "Dogs", ConlluToken.ofText "sleep."]] :=
  ⟨rfl, (C5_process_spec (fun _ : String => ["Cats run.", "Dogs sleep."])
      "Cats run. Dogs sleep.").2.2 rfl⟩

/-- The exception classes declared at the top of `pipeline.py`, plus
Python's built-in `ValueError` which `int()` raises on a malformed
literal. -/
inductive PipelineError
  | fileNotFound
  | notADirectory
  | inconsistentDataset
  | emptyDirectory
  | valueError
deriving DecidableEq, Repr

/-- A directory entry as the filesystem presents it: name and byte
content (`stat().st_size` is the content length). -/
structure PyFile where
  name : String
  content : String
deriving DecidableEq, Repr

/-- The dataset path: whether it exists, whether it is a directory, and
the entries `iterdir`/`glob` traverse, in filesystem order. -/
structure PyPath where
  path_exists : Bool
  is_dir : Bool
  entries : List PyFile
deriving DecidableEq, Repr

/-- `path.glob('*_raw.txt')`: the entries whose name ends with
`_raw.txt`, in filesystem order. -/
def globRaw (entries : List PyFile) : List PyFile :=
  entries.filter (fun f => "_raw.txt".data.isSuffixOf f.name.data)

/-- `name[:name.index('_')]`: the characters before the first
underscore.  Every `*_raw.txt` match contains an underscore, so
`str.index` cannot fail on the names this is applied to. -/
def namePrefix (n : String) : String :=
  String.mk (n.data.takeWhile (fun c => c ≠ '_'))

/-- The digit run of a Python integer literal: non-empty, all decimal
digits, read as a base-10 number. -/
def parseDigits (l : List Char) : Option Nat :=
  if l ≠ [] ∧ l.all Char.isDigit then
    some (l.foldl (fun a c => a * 10 + (c.toNat - 48)) 0)
  else none

/-- Python `int(s)` on the strings occurring here (which never contain
underscore separators): strip whitespace, allow one optional sign, then
require a non-empty digit run; `none` models the `ValueError` Python
raises otherwise. -/
def pyParseInt (s : String) : Option Int :=
  match pyStripList s.data with
  | '+' :: rest => (parseDigits rest).map (fun n => (n : Int))
  | '-' :: rest => (parseDigits rest).map (fun n => -(n : Int))
  | l => (parseDigits l).map (fun n => (n : Int))

/-- First loop of `_validate_dataset`: `InconsistentDatasetError` on the
first raw file of size 0. -/
def checkFilesNonEmpty : List PyFile → Except PipelineError Unit
  | [] => .ok ()
  | f :: rest =>
    if f.content.length = 0 then .error .inconsistentDataset
    else checkFilesNonEmpty rest

/-- Second loop of `_validate_dataset`:
`int(file.name[:file.name.index('_')])` for each raw file, in order; a
malformed prefix raises Python's `ValueError`. -/
def extractIds : List PyFile → Except PipelineError (List Int)
  | [] => .ok []
  | f :: rest =>
    match pyParseInt (namePrefix f.name) with
    | none => .error .valueError
    | some n =>
      match extractIds rest with
      | .error e => .error e
      | .ok ns => .ok (n :: ns)

/-- Python `sorted(list_of_ids)` (ascending). -/
def pySorted (l : List Int) : List Int :=
  l.insertionSort (· ≤ ·)

/-- Python `list(range(1, n + 1))`. -/
def rangeOneTo (n : Nat) : List Int :=
  (List.range n).map (fun i => Int.ofNat (i + 1))

/-- `CorpusManager._validate_dataset`.  The meta-file count cross-check
is commented out in the source and therefore absent here too. -/
def _validate_dataset (p : PyPath) : Except PipelineError Unit :=
  if p.path_exists = false then .error .fileNotFound
  else if p.is_dir = false then .error .notADirectory
  else if p.entries = [] then .error .emptyDirectory
  else
    let raw_files := globRaw p.entries
    match checkFilesNonEmpty raw_files with
    | .error e => .error e
    | .ok _ =>
      match extractIds raw_files with
      | .error e => .error e
      | .ok list_of_ids =>
        if pySorted list_of_ids = rangeOneTo list_of_ids.length then .ok ()
        else .error .inconsistentDataset

/-- `get_article_id_from_filepath` from `core_utils` (outside this
repository).  Modelled from the spec: extract the leading integer ID
from the raw file's name. -/
def get_article_id_from_filepath (f : PyFile) : Int :=
  (pyParseInt (namePrefix f.name)).getD 0

/-- Python dict assignment `storage[article_id] = article`: replace in
place when the key exists, else append (insertion order preserved). -/
def dictInsert (d : List (Int × String)) (k : Int) (v : String) :
    List (Int × String) :=
  if d.any (fun kv => kv.1 = k) then
    d.map (fun kv => if kv.1 = k then (k, v) else kv)
  else d ++ [(k, v)]

/-- `CorpusManager._scan_dataset`: register each raw file's article
(`from_raw` is modelled as the file's text content) under its ID, in
glob order. -/
def _scan_dataset (entries : List PyFile) : List (Int × String) :=
  (globRaw entries).foldl
    (fun storage f => dictInsert storage (get_article_id_from_filepath f) f.content)
    []

/-- `CorpusManager`: the dataset path and the ID-to-article storage. -/
structure CorpusManager where
  path_to_data : PyPath
  _storage : List (Int × String)
deriving DecidableEq, Repr

/-- `CorpusManager.__init__`: storage starts empty, then
`_validate_dataset`, then `_scan_dataset`.  The result pairs the object
state with the exception, if one was raised; an exception leaves the
storage exactly as it was at the raise point. -/
def CorpusManager.init (p : PyPath) : CorpusManager × Option PipelineError :=
  match _validate_dataset p with
  | .error e => (⟨p, []⟩, some e)
  | .ok _ => (⟨p, _scan_dataset p.entries⟩, none)

/-- `CorpusManager.get_articles`. -/
def CorpusManager.get_articles (cm : CorpusManager) : List (Int × String) :=
  cm._storage

/-- C2: construction performs all validation before loading any article:
a missing path gives the dataset-path-missing error, a non-directory
gives `NotADirectoryError`, a directory without entries gives
`EmptyDirectoryError`, and whenever any validation error is raised the
article storage is still empty. -/
theorem C2_init_validates_before_loading (p : PyPath) :
    (p.path_exists = false →
        CorpusManager.init p = (⟨p, []⟩, some .fileNotFound))
      ∧ (p.path_exists = true → p.is_dir = false →
          CorpusManager.init p = (⟨p, []⟩, some .notADirectory))
      ∧ (p.path_exists = true → p.is_dir = true → p.entries = [] →
          CorpusManager.init p = (⟨p, []⟩, some .emptyDirectory))
      ∧ (∀ e, (CorpusManager.init p).2 = some e →
          (CorpusManager.init p).1.get_articles = []) := by
  refine ⟨?_, ?_, ?_, ?_⟩
  · intro h1
    simp [CorpusManager.init, _validate_dataset, h1]
  · intro h1 h2
    simp [CorpusManager.init, _validate_dataset, h1, h2]
  · intro h1 h2 h3
    simp [CorpusManager.init, _validate_dataset, h1, h2, h3]
  · intro e
    cases hv : _validate_dataset p with
    | error e2 => simp [CorpusManager.init, hv, CorpusManager.get_articles]
    | ok u => simp [CorpusManager.init, hv]

/-- C2 witness: a non-existent path fails with the path-missing error and
empty storage. -/
theorem C2_init_validates_before_loading_witness :
    CorpusManager.init ⟨false, true, []⟩
      = (⟨⟨false, true, []⟩, []⟩, some .fileNotFound) :=
  (C2_init_validates_before_loading ⟨false, true, []⟩).1 rfl

/-- C9: an existing, non-empty directory with no `*_raw.txt` entry
constructs successfully (no exception) with an empty article mapping. -/
theorem C9_no_raw_files_succeeds (p : PyPath)
    (h1 : p.path_exists = true) (h2 : p.is_dir = true) (h3 : p.entries ≠ [])
    (h4 : ∀ f ∈ p.entries, "_raw.txt".data.isSuffixOf f.name.data = false) :
    CorpusManager.init p = (⟨p, []⟩, none)
      ∧ (CorpusManager.init p).1.get_articles = [] := by
  have hg : globRaw p.entries = [] := by
    apply List.filter_eq_nil_iff.mpr
    intro f hf
    simp [h4 f hf]
  have hv : _validate_dataset p = .ok () := by
    unfold _validate_dataset
    rw [h1, h2, if_neg (by simp), if_neg h3, hg]
    rfl
  have hs : _scan_dataset p.entries = [] := by
    unfold _scan_dataset
    rw [hg]
    rfl
  constructor
  · simp [CorpusManager.init, hv, hs]
  · simp [CorpusManager.init, hv, hs, CorpusManager.get_articles]

/-- C9 witness: a directory holding one non-matching file. -/
theorem C9_no_raw_files_succeeds_witness :
    CorpusManager.init ⟨true, true, [⟨"notes.txt", "hi"⟩]⟩
      = (⟨⟨true, true, [⟨"notes.txt", "hi"⟩]⟩, []⟩, none) :=
  (C9_no_raw_files_succeeds ⟨true, true, [⟨"notes.txt", "hi"⟩]⟩
    rfl rfl (by simp) (by decide)).1

/-- C10: a directory with a non-empty `*_raw.txt` file whose prefix
before the first underscore is not a decimal integer makes construction
fail with the uncaught `ValueError` from `int()`, not with
`InconsistentDatasetError`. -/
theorem C10_bad_prefix_raises_valueError :
    CorpusManager.init ⟨true, true, [⟨"abc_raw.txt", "text"⟩]⟩
        = (⟨⟨true, true, [⟨"abc_raw.txt", "text"⟩]⟩, []⟩, some .valueError)
      ∧ CorpusManager.init ⟨true, true, [⟨"_raw.txt", "text"⟩]⟩
        = (⟨⟨true, true, [⟨"_raw.txt", "text"⟩]⟩, []⟩, some .valueError)
      ∧ some PipelineError.valueError ≠ some PipelineError.inconsistentDataset := by
  refine ⟨rfl, rfl, by decide⟩

theorem checkFilesNonEmpty_ok_iff (fs : List PyFile) :
    checkFilesNonEmpty fs = .ok () ↔ ∀ f ∈ fs, f.content.length ≠ 0 := by
  induction fs with
  | nil => simp [checkFilesNonEmpty]
  | cons f fs ih =>
    unfold checkFilesNonEmpty
    by_cases h : f.content.length = 0
    · simp [h]
    · simp [h, ih]

theorem checkFilesNonEmpty_error_iff (fs : List PyFile) :
    checkFilesNonEmpty fs = .error .inconsistentDataset
      ↔ ∃ f ∈ fs, f.content.length = 0 := by
  induction fs with
  | nil => simp [checkFilesNonEmpty]
  | cons f fs ih =>
    unfold checkFilesNonEmpty
    by_cases h : f.content.length = 0
    · simp [h]
    · simp [h, ih]

theorem extractIds_ok_parse (fs : List PyFile) (ids : List Int)
    (h : extractIds fs = .ok ids) :
    ids = fs.map get_article_id_from_filepath
      ∧ ∀ f ∈ fs, (pyParseInt (namePrefix f.name)).isSome = true := by
  induction fs generalizing ids with
  | nil =>
    unfold extractIds at h
    simp at h
    simp [h]
  | cons f fs ih =>
    unfold extractIds at h
    cases hp : pyParseInt (namePrefix f.name) with
    | none => rw [hp] at h; simp at h
    | some n =>
      rw [hp] at h
      cases he : extractIds fs with
      | error e => rw [he] at h; simp at h
      | ok ns =>
        rw [he] at h
        simp only [Except.ok.injEq] at h
        obtain ⟨h1, h2⟩ := ih ns he
        constructor
        · rw [← h, List.map_cons, ← h1, get_article_id_from_filepath, hp]
          rfl
        · intro g hg
          rcases List.mem_cons.mp hg with rfl | hg
          · simp [hp]
          · exact h2 g hg

theorem extractIds_of_parse (fs : List PyFile)
    (h : ∀ f ∈ fs, (pyParseInt (namePrefix f.name)).isSome = true) :
    extractIds fs = .ok (fs.map get_article_id_from_filepath) := by
  induction fs with
  | nil => rfl
  | cons f fs ih =>
    have hf := h f (by simp)
    cases hp : pyParseInt (namePrefix f.name) with
    | none => rw [hp] at hf; simp at hf
    | some n =>
      unfold extractIds
      rw [hp, ih (fun g hg => h g (by simp [hg]))]
      simp [get_article_id_from_filepath, hp]

theorem rangeOneTo_sorted (n : Nat) : List.Sorted (· ≤ ·) (rangeOneTo n) := by
  unfold rangeOneTo
  exact List.Pairwise.map _
    (fun a b hab => Int.ofNat_le.mpr (Nat.succ_le_succ hab.le))
    (List.sorted_lt_range n)

theorem pySorted_eq_iff_perm (l r : List Int) (hr : List.Sorted (· ≤ ·) r) :
    pySorted l = r ↔ List.Perm l r := by
  constructor
  · intro h
    have h2 : l.insertionSort (· ≤ ·) = r := h
    exact h2 ▸ (List.perm_insertionSort (· ≤ ·) l).symm
  · intro hp
    exact List.eq_of_perm_of_sorted
      ((List.perm_insertionSort (· ≤ ·) l).trans hp)
      (List.sorted_insertionSort _ l) hr

theorem validate_inconsistent_characterization (p : PyPath) (ids : List Int)
    (h1 : p.path_exists = true) (h2 : p.is_dir = true) (h3 : p.entries ≠ [])
    (hids : extractIds (globRaw p.entries) = .ok ids) :
    _validate_dataset p = .error .inconsistentDataset
      ↔ (∃ f ∈ globRaw p.entries, f.content.length = 0)
          ∨ (ids : Multiset Int) ≠ (rangeOneTo ids.length : Multiset Int) := by
  have hstep : _validate_dataset p
      = (match checkFilesNonEmpty (globRaw p.entries) with
         | .error e => .error e
         | .ok _ =>
           match extractIds (globRaw p.entries) with
           | .error e => .error e
           | .ok list_of_ids =>
             if pySorted list_of_ids = rangeOneTo list_of_ids.length then .ok ()
             else .error .inconsistentDataset) := by
    unfold _validate_dataset
    simp [h1, h2, h3]
  by_cases hex : ∃ f ∈ globRaw p.entries, f.content.length = 0
  · have hc : checkFilesNonEmpty (globRaw p.entries) = .error .inconsistentDataset :=
      (checkFilesNonEmpty_error_iff _).mpr hex
    rw [hstep, hc]
    simp [hex]
  · have hall : ∀ f ∈ globRaw p.entries, f.content.length ≠ 0 := by
      intro f hf hzero
      exact hex ⟨f, hf, hzero⟩
    have hc : checkFilesNonEmpty (globRaw p.entries) = .ok () :=
      (checkFilesNonEmpty_ok_iff _).mpr hall
    rw [hstep, hc, hids]
    by_cases hs : pySorted ids = rangeOneTo ids.length
    · have hmeq : (ids : Multiset Int) = (rangeOneTo ids.length : Multiset Int) :=
        Multiset.coe_eq_coe.mpr
          ((pySorted_eq_iff_perm ids _ (rangeOneTo_sorted _)).mp hs)
      simp [hex, hmeq, hs]
    · have hmne : (ids : Multiset Int) ≠ (rangeOneTo ids.length : Multiset Int) := by
        intro hmeq
        exact hs ((pySorted_eq_iff_perm ids _ (rangeOneTo_sorted _)).mpr
          (Multiset.coe_eq_coe.mp hmeq))
      simp [hs, hmne]

/-- C1: given that the earlier checks pass and every raw-file name has a
numeric prefix, `_validate_dataset` raises `InconsistentDatasetError`
exactly when some matched raw file is empty or the multiset of extracted
IDs differs from the contiguous range `1..N`; the outcome is invariant
under any permutation of the directory entries; and any directory whose
raw-file IDs form the multiset `{1, 2, 4}` raises
`InconsistentDatasetError`. -/
theorem C1_validate_inconsistent (p : PyPath) (ids : List Int)
    (h1 : p.path_exists = true) (h2 : p.is_dir = true) (h3 : p.entries ≠ [])
    (hids : extractIds (globRaw p.entries) = .ok ids) :
    (_validate_dataset p = .error .inconsistentDataset
        ↔ (∃ f ∈ globRaw p.entries, f.content.length = 0)
            ∨ (ids : Multiset Int) ≠ (rangeOneTo ids.length : Multiset Int))
      ∧ (∀ entries₂, List.Perm entries₂ p.entries →
          (_validate_dataset ⟨true, true, entries₂⟩ = .error .inconsistentDataset
            ↔ _validate_dataset p = .error .inconsistentDataset))
      ∧ ((ids : Multiset Int) = ({1, 2, 4} : Multiset Int) →
          _validate_dataset p = .error .inconsistentDataset) := by
  have hchar := validate_inconsistent_characterization p ids h1 h2 h3 hids
  refine ⟨hchar, ?_, ?_⟩
  · intro entries₂ hperm
    have hglob : List.Perm (globRaw entries₂) (globRaw p.entries) := hperm.filter _
    obtain ⟨hid_eq, hparse⟩ := extractIds_ok_parse _ _ hids
    have hids2 : extractIds (globRaw entries₂)
        = .ok ((globRaw entries₂).map get_article_id_from_filepath) :=
      extractIds_of_parse _ (fun f hf => hparse f (hglob.mem_iff.mp hf))
    have hperm_ids :
        List.Perm ((globRaw entries₂).map get_article_id_from_filepath) ids := by
      rw [hid_eq]
      exact hglob.map _
    have h3b : entries₂ ≠ [] := by
      intro hnil
      apply h3
      have hlen := hperm.length_eq
      rw [hnil] at hlen
      exact List.length_eq_zero.mp hlen.symm
    have hchar2 := validate_inconsistent_characterization ⟨true, true, entries₂⟩
      ((globRaw entries₂).map get_article_id_from_filepath) rfl rfl h3b hids2
    rw [hchar, hchar2]
    refine or_congr ?_ ?_
    · constructor
      · rintro ⟨f, hf, h0⟩
        exact ⟨f, hglob.mem_iff.mp hf, h0⟩
      · rintro ⟨f, hf, h0⟩
        exact ⟨f, hglob.mem_iff.mpr hf, h0⟩
    · have hm : ((globRaw entries₂).map get_article_id_from_filepath : Multiset Int)
          = (ids : Multiset Int) := Multiset.coe_eq_coe.mpr hperm_ids
      have hl : ((globRaw entries₂).map get_article_id_from_filepath).length
          = ids.length := hperm_ids.length_eq
      rw [hm, hl]
  · intro hm
    apply hchar.mpr
    right
    have hlen : ids.length = 3 := by
      have hcard := congrArg Multiset.card hm
      rw [Multiset.coe_card] at hcard
      simpa using hcard
    rw [hlen, hm]
    decide

/-- C1 witness: the directory with raw files 1, 2 and 4 (gap at 3)
raises `InconsistentDatasetError`. -/
theorem C1_validate_inconsistent_witness :
    extractIds (globRaw [⟨"1_raw.txt", "a"⟩, ⟨"2_raw.txt", "b"⟩, ⟨"4_raw.txt", "c"⟩])
        = .ok [1, 2, 4]
      ∧ _validate_dataset
          ⟨true, true, [⟨"1_raw.txt", "a"⟩, ⟨"2_raw.txt", "b"⟩, ⟨"4_raw.txt", "c"⟩]⟩
        = .error .inconsistentDataset :=
  ⟨rfl,
    (C1_validate_inconsistent
      ⟨true, true, [⟨"1_raw.txt", "a"⟩, ⟨"2_raw.txt", "b"⟩, ⟨"4_raw.txt", "c"⟩]⟩
      [1, 2, 4] rfl rfl (by simp) rfl).2.2 (by decide)⟩

/-- Decimal digit characters of `n`, most significant first (the digits
of Python's `str(n)` / f-string formatting). -/
def natDigits (n : Nat) : List Char :=
  if n < 10 then [Char.ofNat (48 + n)]
  else natDigits (n / 10) ++ [Char.ofNat (48 + n % 10)]
termination_by n
decreasing_by exact Nat.div_lt_self (by omega) (by omega)

/-- Decimal rendering of a natural number. -/
def natToString (n : Nat) : String :=
  String.mk (natDigits n)

theorem digitChar_isDigit (m : Nat) (h : m < 10) :
    (Char.ofNat (48 + m)).isDigit = true := by
  interval_cases m <;> decide

theorem digitChar_val (m : Nat) (h : m < 10) :
    (Char.ofNat (48 + m)).toNat - 48 = m := by
  interval_cases m <;> decide

theorem natDigits_spec (n : Nat) :
    natDigits n ≠ [] ∧ (∀ c ∈ natDigits n, c.isDigit = true)
      ∧ ∀ a : Nat, (natDigits n).foldl (fun acc c => acc * 10 + (c.toNat - 48)) a
          = a * 10 ^ (natDigits n).length + n := by
  induction n using Nat.strong_induction_on with
  | _ n ih =>
    by_cases h : n < 10
    · rw [natDigits, if_pos h]
      refine ⟨by simp, ?_, ?_⟩
      · intro c hc
        rw [List.mem_singleton] at hc
        subst hc
        exact digitChar_isDigit n h
      · intro a
        simp [List.foldl_cons, digitChar_val n h]
    · have hdiv : n / 10 < n := Nat.div_lt_self (by omega) (by omega)
      obtain ⟨ih1, ih2, ih3⟩ := ih (n / 10) hdiv
      rw [natDigits, if_neg h]
      refine ⟨by simp [ih1], ?_, ?_⟩
      · intro c hc
        rcases List.mem_append.mp hc with hc | hc
        · exact ih2 c hc
        · rw [List.mem_singleton] at hc
          subst hc
          exact digitChar_isDigit _ (Nat.mod_lt _ (by omega))
      · intro a
        rw [List.foldl_append, ih3 a, List.length_append, List.length_singleton,
          List.foldl_cons, List.foldl_nil, digitChar_val _ (Nat.mod_lt _ (by omega)),
          pow_succ, ← mul_assoc]
        omega

theorem parseDigits_natDigits (n : Nat) :
    parseDigits (natDigits n) = some n := by
  obtain ⟨h1, h2, h3⟩ := natDigits_spec n
  unfold parseDigits
  rw [if_pos ⟨h1, List.all_eq_true.mpr h2⟩, h3 0]
  simp

/-- A string containing no newline character. -/
def noNLB (s : String) : Bool :=
  s.data.all (fun c => c ≠ '\n')

theorem noNLB_append (a b : String) :
    noNLB (a ++ b) = (noNLB a && noNLB b) := by
  simp [noNLB, String.data_append, List.all_append]

theorem noNLB_natToString (n : Nat) : noNLB (natToString n) = true := by
  rw [noNLB, natToString, List.all_eq_true]
  intro c hc
  have hd := (natDigits_spec n).2.1 c hc
  simp only [decide_eq_true_eq]
  intro hnl
  subst hnl
  exact absurd hd (by decide)

/-- `ConlluToken.get_conllu_text`.  Modelled from the spec: the source
body is a declaration-only stub; the spec prescribes the ten
tab-separated CONLL-U columns
`ID FORM LEMMA UPOS XPOS FEATS HEAD DEPREL DEPS MISC`, with `_` in every
morphological column when tags are excluded (and in the unpopulated
columns always). -/
def ConlluToken.get_conllu_text (t : ConlluToken) (tokenId : Nat)
    (include_morphological_tags : Bool) : String :=
  natToString tokenId ++ "\t" ++ t._text ++ "\t"
    ++ (if include_morphological_tags then
          t._morphological_parameters.lemmaForm ++ "\t"
            ++ t._morphological_parameters.pos ++ "\t_\t"
            ++ t._morphological_parameters.tags
        else "_\t_\t_\t_")
    ++ "\t_\t_\t_\t_"

/-- Join lines with `\n` separators (no trailing newline). -/
def joinLines : List String → String
  | [] => ""
  | [x] => x
  | x :: xs => x ++ "\n" ++ joinLines xs

/-- `ConlluSentence.get_conllu_text`.  Modelled from the spec: the source
body is a declaration-only stub; the spec prescribes a sentence-ID
comment line carrying `position + 1`, a text comment line carrying the
raw text, then one token line per token with 1-based IDs, in token
order. -/
def ConlluSentence.get_conllu_text (s : ConlluSentence)
    (include_morphological_tags : Bool) : String :=
  joinLines
    (("# sent_id = " ++ natToString (s._position + 1))
      :: ("# text = " ++ s._text)
      :: s._tokens.enum.map (fun pt =>
          pt.2.get_conllu_text (pt.1 + 1) include_morphological_tags))

/-- Split a character list at `\n` (inverse of joining). -/
def splitLinesList : List Char → List (List Char)
  | [] => [[]]
  | c :: rest =>
    if c = '\n' then [] :: splitLinesList rest
    else
      match splitLinesList rest with
      | [] => [[c]]
      | l :: ls => (c :: l) :: ls

/-- Split a rendered block into its lines. -/
def splitLines (s : String) : List String :=
  (splitLinesList s.data).map String.mk

/-- Re-parse a sentence-ID comment line: strip the `# sent_id = ` prefix
and read the decimal number. -/
def parseSentIdLine (line : String) : Option Nat :=
  if ("# sent_id = ".data).isPrefixOf line.data then
    parseDigits (line.data.drop "# sent_id = ".data.length)
  else none

/-- Re-parse a text comment line: strip the `# text = ` prefix. -/
def parseTextLine (line : String) : Option String :=
  if ("# text = ".data).isPrefixOf line.data then
    some (String.mk (line.data.drop "# text = ".data.length))
  else none

theorem splitLinesList_no_nl (l : List Char) (h : '\n' ∉ l) :
    splitLinesList l = [l] := by
  induction l with
  | nil => rfl
  | cons c rest ih =>
    have hc : c ≠ '\n' := fun hcn => h (hcn ▸ List.mem_cons_self c rest)
    have hrest : '\n' ∉ rest := fun hm => h (List.mem_cons_of_mem c hm)
    unfold splitLinesList
    rw [if_neg hc, ih hrest]

theorem splitLinesList_append (a rest : List Char) (h : '\n' ∉ a) :
    splitLinesList (a ++ '\n' :: rest) = a :: splitLinesList rest := by
  induction a with
  | nil =>
    show splitLinesList ('\n' :: rest) = [] :: splitLinesList rest
    simp only [splitLinesList]
    rw [if_pos trivial]
  | cons c as ih =>
    have hc : c ≠ '\n' := fun hcn => h (hcn ▸ List.mem_cons_self c as)
    have has : '\n' ∉ as := fun hm => h (List.mem_cons_of_mem c hm)
    rw [List.cons_append]
    simp only [splitLinesList]
    rw [if_neg hc, ih has]

theorem noNLB_data_not_mem (s : String) (h : noNLB s = true) : '\n' ∉ s.data := by
  intro hm
  have := List.all_eq_true.mp h '\n' hm
  simp at this

theorem splitLines_joinLines (ls : List String) (hne : ls ≠ [])
    (h : ∀ l ∈ ls, noNLB l = true) :
    splitLines (joinLines ls) = ls := by
  induction ls with
  | nil => exact absurd rfl hne
  | cons x xs ih =>
    cases xs with
    | nil =>
      show (splitLinesList x.data).map String.mk = [x]
      rw [splitLinesList_no_nl x.data (noNLB_data_not_mem x (h x (by simp)))]
      rfl
    | cons y ys =>
      have hjoin : joinLines (x :: y :: ys) = x ++ "\n" ++ joinLines (y :: ys) := rfl
      unfold splitLines
      rw [hjoin]
      have hdata : (x ++ "\n" ++ joinLines (y :: ys)).data
          = x.data ++ '\n' :: (joinLines (y :: ys)).data := by
        rw [String.data_append, String.data_append, List.append_assoc]
        rfl
      rw [hdata,
        splitLinesList_append _ _ (noNLB_data_not_mem x (h x (by simp))),
        List.map_cons]
      have htail := ih (by simp) (fun l hl => h l (by simp [hl]))
      exact congrArg₂ List.cons rfl htail

theorem parseSentIdLine_roundtrip (n : Nat) :
    parseSentIdLine ("# sent_id = " ++ natToString n) = some n := by
  unfold parseSentIdLine
  have hdata : ("# sent_id = " ++ natToString n).data
      = "# sent_id = ".data ++ natDigits n := by
    rw [String.data_append]
    rfl
  rw [hdata, if_pos (by simp [List.isPrefixOf_iff_prefix]), List.drop_left]
  exact parseDigits_natDigits n

theorem parseTextLine_roundtrip (t : String) :
    parseTextLine ("# text = " ++ t) = some t := by
  unfold parseTextLine
  have hdata : ("# text = " ++ t).data = "# text = ".data ++ t.data := by
    rw [String.data_append]
  rw [hdata, if_pos (by simp [List.isPrefixOf_iff_prefix]), List.drop_left]

theorem noNLB_lit_tab : noNLB "\t" = true := rfl

theorem noNLB_lit_cols : noNLB "_\t_\t_\t_" = true := rfl

theorem noNLB_lit_tail : noNLB "\t_\t_\t_\t_" = true := rfl

theorem noNLB_lit_sentid : noNLB "# sent_id = " = true := rfl

theorem noNLB_lit_text : noNLB "# text = " = true := rfl

theorem tokenLine_noNLB (t : ConlluToken) (i : Nat) (h : noNLB t._text = true) :
    noNLB (t.get_conllu_text i false) = true := by
  show noNLB (natToString i ++ "\t" ++ t._text ++ "\t"
      ++ ("_\t_\t_\t_") ++ "\t_\t_\t_\t_") = true
  simp [noNLB_append, noNLB_natToString, h, noNLB_lit_tab, noNLB_lit_cols,
    noNLB_lit_tail]

/-- C6: rendering a sentence with tags excluded yields a block whose
first line is the sentence-ID comment carrying `position + 1`, whose
second line is the text comment carrying `raw_text`, followed by one
line per token with 1-based IDs in token order; re-parsing the two
comment lines recovers `position + 1` and `raw_text` exactly.  (Both the
raw text and the token surface forms are assumed newline-free, as line
structure is otherwise ill-defined.) -/
theorem C6_render_roundtrip (s : ConlluSentence)
    (hraw : noNLB s._text = true)
    (htok : ∀ t ∈ s._tokens, noNLB t._text = true) :
    splitLines (s.get_conllu_text false)
        = ("# sent_id = " ++ natToString (s._position + 1))
          :: ("# text = " ++ s._text)
          :: s._tokens.enum.map (fun pt => pt.2.get_conllu_text (pt.1 + 1) false)
      ∧ (splitLines (s.get_conllu_text false)).length = 2 + s._tokens.length
      ∧ parseSentIdLine ("# sent_id = " ++ natToString (s._position + 1))
          = some (s._position + 1)
      ∧ parseTextLine ("# text = " ++ s._text) = some s._text := by
  have hsplit : splitLines (s.get_conllu_text false)
      = ("# sent_id = " ++ natToString (s._position + 1))
        :: ("# text = " ++ s._text)
        :: s._tokens.enum.map (fun pt => pt.2.get_conllu_text (pt.1 + 1) false) := by
    unfold ConlluSentence.get_conllu_text
    apply splitLines_joinLines
    · simp
    · intro l hl
      rcases List.mem_cons.mp hl with rfl | hl
      · rw [noNLB_append, noNLB_lit_sentid, noNLB_natToString]
        rfl
      rcases List.mem_cons.mp hl with rfl | hl
      · rw [noNLB_append, noNLB_lit_text, hraw]
        rfl
      · obtain ⟨pt, hpt, rfl⟩ := List.mem_map.mp hl
        exact tokenLine_noNLB pt.2 (pt.1 + 1)
          (htok pt.2 (List.snd_mem_of_mem_enum hpt))
  refine ⟨hsplit, ?_, parseSentIdLine_roundtrip _, parseTextLine_roundtrip _⟩
  rw [hsplit]
  simp [List.enum_length]
  omega

/-- C6 witness: the round-trip at a concrete two-token sentence. -/
theorem C6_render_roundtrip_witness :
    noNLB "Hi there." = true
      ∧ (∀ t ∈ [ConlluToken.ofText "Hi", ConlluToken.ofText "there."],
          noNLB t._text = true)
      ∧ splitLines ((ConlluSentence.mk 0 "Hi there."
            [ConlluToken.ofText "Hi", ConlluToken.ofText "there."]).get_conllu_text false)
          = ("# sent_id = " ++ natToString (0 + 1))
            :: ("# text = " ++ "Hi there.")
            :: ([ConlluToken.ofText "Hi", ConlluToken.ofText "there."].enum.map
                (fun pt => pt.2.get_conllu_text (pt.1 + 1) false)) :=
  ⟨rfl, by decide,
    (C6_render_roundtrip
      (ConlluSentence.mk 0 "Hi there."
        [ConlluToken.ofText "Hi", ConlluToken.ofText "there."]) rfl (by decide)).1⟩

/-- The UD coarse part-of-speech categories shared by both converters.
Modelled from the spec: the correspondence tables map each native tagset
onto this one fixed UD vocabulary. -/
inductive UDPos
  | noun
  | verb
  | adj
  | adv
  | pron
  | adp
  | cconj
  | num
  | particle
  | intj
deriving DecidableEq, Repr

/-- The UD POS token for each category. -/
def UDPos.udToken : UDPos → String
  | .noun => "NOUN"
  | .verb => "VERB"
  | .adj => "ADJ"
  | .adv => "ADV"
  | .pron => "PRON"
  | .adp => "ADP"
  | .cconj => "CCONJ"
  | .num => "NUM"
  | .particle => "PART"
  | .intj => "INTJ"

/-- The Mystem POS fragment: the leading run of a Mystem tag string
before the first `,` or `=`.  Modelled from the spec: the converter
"extracts the coarse part-of-speech fragment from the native tag". -/
def mystemPosFragment (tags : String) : String :=
  String.mk (tags.data.takeWhile (fun c => c ≠ ',' && c ≠ '='))

/-- Correspondence table from Mystem POS fragments to UD categories.
Modelled from the spec: a fixed native-tag-fragment to UD-tag-fragment
table. -/
def mystemPosTable : List (String × UDPos) :=
  [("S", .noun), ("V", .verb), ("A", .adj), ("ADV", .adv), ("SPRO", .pron),
    ("PR", .adp), ("CONJ", .cconj), ("NUM", .num), ("PART", .particle),
    ("INTJ", .intj)]

/-- `MystemTagConverter.convert_pos`.  Modelled from the spec: the source
body is a declaration-only stub; extract the POS fragment, look it up in
the fixed table, and fall back to the explicit unknown sentinel `X` —
the same policy as the OpenCorpora variant. -/
def MystemTagConverter.convert_pos (tags : String) : String :=
  match mystemPosTable.lookup (mystemPosFragment tags) with
  | some u => u.udToken
  | none => "X"

/-- An OpenCorpora tag object: unlike the Mystem string, the native POS
arrives as a structured field. -/
structure OpencorporaTag where
  pos : String
deriving DecidableEq, Repr

/-- Correspondence table from OpenCorpora POS grammemes to UD
categories.  Modelled from the spec. -/
def openCorporaPosTable : List (String × UDPos) :=
  [("NOUN", .noun), ("VERB", .verb), ("INFN", .verb), ("ADJF", .adj),
    ("ADJS", .adj), ("ADVB", .adv), ("NPRO", .pron), ("PREP", .adp),
    ("CONJ", .cconj), ("NUMR", .num), ("PRCL", .particle), ("INTJ", .intj)]

/-- `OpenCorporaTagConverter.convert_pos`.  Modelled from the spec: the
source body is a declaration-only stub; look the structured tag's POS
field up in the fixed table, with the same unknown-sentinel policy as
the Mystem variant. -/
def OpenCorporaTagConverter.convert_pos (tag : OpencorporaTag) : String :=
  match openCorporaPosTable.lookup tag.pos with
  | some u => u.udToken
  | none => "X"

/-- C8: whenever a Mystem-shaped tag and an OpenCorpora-shaped tag denote
the same UD category, the two `convert_pos` variants return the
identical UD POS string; in particular both analyzers' noun tags map to
`"NOUN"`. -/
theorem C8_convert_pos_agree (m : String) (o : OpencorporaTag) (u : UDPos)
    (hm : mystemPosTable.lookup (mystemPosFragment m) = some u)
    (ho : openCorporaPosTable.lookup o.pos = some u) :
    MystemTagConverter.convert_pos m = OpenCorporaTagConverter.convert_pos o
      ∧ MystemTagConverter.convert_pos m = u.udToken
      ∧ MystemTagConverter.convert_pos "S,ед,им=муж" = "NOUN"
      ∧ OpenCorporaTagConverter.convert_pos ⟨"NOUN"⟩ = "NOUN" := by
  refine ⟨?_, ?_, by decide, by decide⟩
  · rw [MystemTagConverter.convert_pos, OpenCorporaTagConverter.convert_pos, hm, ho]
  · rw [MystemTagConverter.convert_pos, hm]

/-- C8 witness: the theorem applied to both analyzers' noun tags. -/
theorem C8_convert_pos_agree_witness :
    mystemPosTable.lookup (mystemPosFragment "S,ед,им=муж") = some UDPos.noun
      ∧ openCorporaPosTable.lookup (OpencorporaTag.mk "NOUN").pos = some UDPos.noun
      ∧ MystemTagConverter.convert_pos "S,ед,им=муж"
          = OpenCorporaTagConverter.convert_pos ⟨"NOUN"⟩ :=
  ⟨by decide, by decide,
    (C8_convert_pos_agree "S,ед,им=муж" ⟨"NOUN"⟩ UDPos.noun
      (by decide) (by decide)).1⟩
